import Mathlib

/-
Verification of the lang-chain-semantic repository (LangGraphSemantic).

The repository ships design documents (src/design/architecture.md,
src/research/pydantic_shacl_mapping.md), a demo notebook
(src/examples/demo_notebook.ipynb) that drives the library, a marketing
site (src/web-site), and deployment scripts.  The core library itself
(ModelIntrospector, TypeMapper/ConstraintMapper, ShapeGenerator,
ShapeRegistry, GraphStoreClient, ValidationEngine) is not part of the
source tree: only its documentation and callers are.  Definitions below
that embed that missing core are therefore modelled from the spec, and
each such definition says so in its doc comment.  The contact-form
handler and the Fuseki setup code are real source files and are embedded
directly from the code.
-/

namespace LGS

/-- Primitive datatype tags of the supported type taxonomy
(string / int / bool; the spec also lists float and date-time-like,
which no claim exercises). -/
inductive PrimTag
| tString
| tInt
| tBool
deriving DecidableEq, Repr

/-- A primitive runtime value. -/
inductive PrimValue
| pstr (s : String)
| pint (n : Int)
| pbool (b : Bool)
deriving DecidableEq, Repr

/-- A DataRecord value: a scalar, an ordered sequence of values, or a
nested record (field name to value mapping), per spec section 3. -/
inductive SValue
| prim (p : PrimValue)
| vlist (elems : List SValue)
| vrec (entries : List (String × SValue))

/-- Serialized regular-expression patterns used by the demo models,
with executable matching semantics shared by the schema side and the
shape side (the spec maps `regex` to `sh:pattern` one-to-one). -/
inductive Pattern
| upperAlpha
| zip5or9
deriving DecidableEq, Repr

/-- Executable semantics of a pattern on a string. -/
def Pattern.matchesStr : Pattern → String → Bool
| .upperAlpha, s => s.toList.all (fun c => !c.isLower)
| .zip5or9, s =>
    let cs := s.toList
    (cs.length == 5 && cs.all Char.isDigit) ||
    (cs.length == 10 && (cs.take 5).all Char.isDigit &&
      cs.getD 5 ' ' == '-' && (cs.drop 6).all Char.isDigit)

/-- Modelled from the spec: the enumerated ConstraintSpec kinds of
spec section 3 (the missing core's constraint vocabulary).  The spec's
opaque-predicate kind is named `customPredicateK` here. -/
inductive ConstraintKind
| minLengthK
| maxLengthK
| patternK
| minInclusiveK
| maxInclusiveK
| minExclusiveK
| maxExclusiveK
| requiredK
| enumeratedValuesK
| customPredicateK
| unexpectedFieldK
deriving DecidableEq, Repr

/-- Modelled from the spec: a constraint together with its parameters,
keyed by kind (spec section 3, ConstraintSpec).  The spec's
opaque-predicate constraint carries the predicate's serialized form. -/
inductive BaseConstraint
| minLength (n : Nat)
| maxLength (n : Nat)
| patternC (p : Pattern)
| minInclusive (b : Int)
| maxInclusive (b : Int)
| minExclusive (b : Int)
| maxExclusive (b : Int)
| requiredC
| enumerated (vs : List PrimValue)
| customPredicate (serialized : String)
deriving DecidableEq, Repr

/-- The ConstraintKind of a BaseConstraint. -/
def BaseConstraint.ckind : BaseConstraint → ConstraintKind
| .minLength _ => .minLengthK
| .maxLength _ => .maxLengthK
| .patternC _ => .patternK
| .minInclusive _ => .minInclusiveK
| .maxInclusive _ => .maxInclusiveK
| .minExclusive _ => .minExclusiveK
| .maxExclusive _ => .maxExclusiveK
| .requiredC => .requiredK
| .enumerated _ => .enumeratedValuesK
| .customPredicate _ => .customPredicateK

/-- Modelled from the spec: a ConstraintSpec as produced by the missing
ConstraintMapper; `unsupported` is the spec's `unsupported: true` tag for
constraints the target representation cannot execute. -/
structure ConstraintSpec where
  base : BaseConstraint
  unsupported : Bool
deriving DecidableEq, Repr

/-- Modelled from the spec: shape-side evaluation of one BaseConstraint
against one present value (ValidationEngine, spec section 4.6).
Constraints that do not apply to the value's runtime type accept it. -/
def BaseConstraint.checkVal : BaseConstraint → SValue → Bool
| .minLength n, .prim (.pstr s) => decide (n ≤ s.length)
| .minLength _, _ => true
| .maxLength n, .prim (.pstr s) => decide (s.length ≤ n)
| .maxLength _, _ => true
| .patternC p, .prim (.pstr s) => p.matchesStr s
| .patternC _, _ => true
| .minInclusive b, .prim (.pint n) => decide (b ≤ n)
| .minInclusive _, _ => true
| .maxInclusive b, .prim (.pint n) => decide (n ≤ b)
| .maxInclusive _, _ => true
| .minExclusive b, .prim (.pint n) => decide (b < n)
| .minExclusive _, _ => true
| .maxExclusive b, .prim (.pint n) => decide (n < b)
| .maxExclusive _, _ => true
| .requiredC, _ => true
| .enumerated vs, .prim p => vs.contains p
| .enumerated _, _ => true
| .customPredicate _, _ => true

/-- Severity of a ValidationResult (spec section 3). -/
inductive Severity
| violation
| warning
deriving DecidableEq, Repr

/-- One segment of a dotted/indexed field path. -/
inductive PathSeg
| fieldSeg (name : String)
| idxSeg (i : Nat)
deriving DecidableEq, Repr

/-- Modelled from the spec: a ValidationResult — field path, violated
constraint kind, severity and message (spec section 3). -/
structure ValidationResult where
  path : List PathSeg
  ckind : ConstraintKind
  severity : Severity
  message : String
deriving DecidableEq, Repr

/-- Renders the tail of a structured path in dotted/indexed notation. -/
def renderPathAux : List PathSeg → String
| [] => ""
| .fieldSeg s :: rest => "." ++ s ++ renderPathAux rest
| .idxSeg i :: rest => "[" ++ toString i ++ "]" ++ renderPathAux rest

/-- Renders a structured path in the spec's dotted/indexed notation,
e.g. `addresses[1].state`. -/
def renderPath : List PathSeg → String
| [] => ""
| .fieldSeg s :: rest => s ++ renderPathAux rest
| .idxSeg i :: rest => "[" ++ toString i ++ "]" ++ renderPathAux rest

/-- Modelled from the spec: a ValidationReport passes iff no entry has
severity violation (spec section 3). -/
def reportPass (rs : List ValidationResult) : Bool :=
  rs.all (fun r => !(r.severity == Severity.violation))

/-- Field type in the supported taxonomy (spec section 4.1/4.2):
primitive, optional, list (of primitives or of nested records), nested
reference and optional nested reference.  Nested references carry the
target-class identifier. -/
inductive FType
| prim (t : PrimTag)
| optionalP (t : PrimTag)
| listP (t : PrimTag)
| listNested (cls : String)
| nested (cls : String)
| optionalNested (cls : String)
deriving DecidableEq, Repr

/-- The target-class identifier a field type references, if any. -/
def FType.refClass : FType → Option String
| .listNested c => some c
| .nested c => some c
| .optionalNested c => some c
| _ => none

/-- Whether the field holds an ordered sequence of values. -/
def FType.isList : FType → Bool
| .listP _ => true
| .listNested _ => true
| _ => false

/-- Cardinality lower bound 1 (spec section 4.2: required T has lower
bound 1; optional and list fields have no lower bound). -/
def FType.requiresValue : FType → Bool
| .prim _ => true
| .nested _ => true
| _ => false

/-- Qualifies a nested reference with the configured base namespace, so
references name the referenced shape's target-class identifier. -/
def FType.qualify (ns : String) : FType → FType
| .listNested c => .listNested (ns ++ c)
| .nested c => .nested (ns ++ c)
| .optionalNested c => .optionalNested (ns ++ c)
| t => t

/-- A source-schema field constraint (the adapter-decoded form of a
pydantic `Field` rule or `@validator`, per the notebook's models and
spec section 4.2).  A custom validator carries both its serialized name
and its executable predicate; only the schema side can run the
predicate. -/
inductive FieldRule
| minLen (n : Nat)
| maxLen (n : Nat)
| regex (p : Pattern)
| ge (b : Int)
| gt (b : Int)
| le (b : Int)
| lt (b : Int)
| enumVals (vs : List PrimValue)
| customValidator (serialized : String) (pred : PrimValue → Bool)

/-- The present values of a field's stored value: the elements for a
sequence, the value itself otherwise (spec section 4.6 evaluates every
ConstraintSpec against each present value). -/
def presentValues : SValue → List SValue
| .vlist es => es
| v => [v]

/-- Schema-side acceptance of one rule on one present value: the
semantics the originating schema itself enforces.  Rules that do not
apply to the value's runtime type accept it. -/
def ruleAccepts : FieldRule → SValue → Bool
| .minLen n, .prim (.pstr s) => decide (n ≤ s.length)
| .minLen _, _ => true
| .maxLen n, .prim (.pstr s) => decide (s.length ≤ n)
| .maxLen _, _ => true
| .regex p, .prim (.pstr s) => p.matchesStr s
| .regex _, _ => true
| .ge b, .prim (.pint n) => decide (b ≤ n)
| .ge _, _ => true
| .gt b, .prim (.pint n) => decide (b < n)
| .gt _, _ => true
| .le b, .prim (.pint n) => decide (n ≤ b)
| .le _, _ => true
| .lt b, .prim (.pint n) => decide (n < b)
| .lt _, _ => true
| .enumVals vs, .prim p => vs.contains p
| .enumVals _, _ => true
| .customValidator _ f, .prim p => f p
| .customValidator _ _, _ => true

/-- Modelled from the spec: the missing ConstraintMapper.  Each numeric
or string bound maps one-to-one (spec section 4.2's table); a custom
validator becomes an opaque-predicate ConstraintSpec carrying its
serialized form, tagged `unsupported: true` because the target
representation cannot execute it. -/
def mapRule : FieldRule → ConstraintSpec
| .minLen n => ⟨.minLength n, false⟩
| .maxLen n => ⟨.maxLength n, false⟩
| .regex p => ⟨.patternC p, false⟩
| .ge b => ⟨.minInclusive b, false⟩
| .gt b => ⟨.minExclusive b, false⟩
| .le b => ⟨.maxInclusive b, false⟩
| .lt b => ⟨.maxExclusive b, false⟩
| .enumVals vs => ⟨.enumerated vs, false⟩
| .customValidator s _ => ⟨.customPredicate s, true⟩

/-- Modelled from the spec: ConstraintMapper's full result — the mapped
spec plus the diagnostics it emits.  An inexpressible constraint is
returned tagged `unsupported: true` together with a diagnostic, rather
than being dropped silently (spec section 4.2). -/
def mapRuleDiag (r : FieldRule) : ConstraintSpec × List String :=
  let c := mapRule r
  (c, if c.unsupported then ["unsupported constraint carried forward"] else [])

/-- A source-schema field: name, declared type, ordered rules. -/
structure SchemaField where
  name : String
  ftype : FType
  rules : List FieldRule

/-- A source schema: name plus ordered field declarations (schema
declaration order, spec section 4.1). -/
structure Schema where
  sname : String
  fields : List SchemaField

/-- Modelled from the spec: a FieldDescriptor — name, type tag (with
any nested-shape identifier), ordered ConstraintSpec list (spec
section 3). -/
structure FieldDescriptor where
  fname : String
  tag : FType
  constraints : List ConstraintSpec
deriving DecidableEq, Repr

/-- Modelled from the spec: a ShapeDescriptor — target-class
identifier, ordered FieldDescriptors, content hash, closed/open
validation mode flag (spec section 3). -/
structure ShapeDescriptor where
  targetClass : String
  fields : List FieldDescriptor
  contentHash : Nat
  closed : Bool
deriving DecidableEq, Repr

/-- Width of the content digest. -/
def hashMod : Nat := 18446744073709551616

/-- One mixing step of the digest, reduced to the digest width. -/
def mix (a b : Nat) : Nat := (a * 1000003 + b) % hashMod

/-- Digest of a string. -/
def hashString (s : String) : Nat := s.foldl (fun a c => mix a c.toNat) 7

/-- Digest of an integer. -/
def hashInt : Int → Nat
| .ofNat n => mix 11 n
| .negSucc n => mix 13 n

/-- Digest of a primitive value. -/
def hashPrimValue : PrimValue → Nat
| .pstr s => mix 21 (hashString s)
| .pint n => mix 22 (hashInt n)
| .pbool b => mix 23 (cond b 1 0)

/-- Digest of a pattern. -/
def hashPattern : Pattern → Nat
| .upperAlpha => 31
| .zip5or9 => 32

/-- Digest of a base constraint. -/
def hashBase : BaseConstraint → Nat
| .minLength n => mix 41 n
| .maxLength n => mix 42 n
| .patternC p => mix 43 (hashPattern p)
| .minInclusive b => mix 44 (hashInt b)
| .maxInclusive b => mix 45 (hashInt b)
| .minExclusive b => mix 46 (hashInt b)
| .maxExclusive b => mix 47 (hashInt b)
| .requiredC => 48
| .enumerated vs => vs.foldl (fun a v => mix a (hashPrimValue v)) 49
| .customPredicate s => mix 50 (hashString s)

/-- Digest of a ConstraintSpec. -/
def hashConstraint (c : ConstraintSpec) : Nat :=
  mix (hashBase c.base) (cond c.unsupported 1 0)

/-- Digest of a primitive tag. -/
def hashPrimTag : PrimTag → Nat
| .tString => 61
| .tInt => 62
| .tBool => 63

/-- Digest of a field type. -/
def hashFType : FType → Nat
| .prim t => mix 71 (hashPrimTag t)
| .optionalP t => mix 72 (hashPrimTag t)
| .listP t => mix 73 (hashPrimTag t)
| .listNested c => mix 74 (hashString c)
| .nested c => mix 75 (hashString c)
| .optionalNested c => mix 76 (hashString c)

/-- Digest of a FieldDescriptor. -/
def hashField (fd : FieldDescriptor) : Nat :=
  fd.constraints.foldl (fun a c => mix a (hashConstraint c))
    (mix (hashString fd.fname) (hashFType fd.tag))

/-- Modelled from the spec: the deterministic content digest over the
canonicalized descriptor — a pure function of the target-class
identifier and the FieldDescriptors (spec section 3, invariant a). -/
def hashShape (tc : String) (fields : List FieldDescriptor) : Nat :=
  fields.foldl (fun a fd => mix a (hashField fd)) (hashString tc)

/-- Modelled from the spec: the missing ModelIntrospector's per-field
work — a FieldDescriptor with the field's rules mapped by the
ConstraintMapper and nested references qualified by namespace. -/
def introspectField (ns : String) (f : SchemaField) : FieldDescriptor :=
  ⟨f.name, f.ftype.qualify ns, f.rules.map mapRule⟩

/-- Modelled from the spec: the missing ShapeGenerator's `generate` —
assembles FieldDescriptors into a ShapeDescriptor, assigns the
target-class identifier deterministically from (namespace, schema
name), and computes the content hash (spec section 4.3).  The spec
leaves the default validation mode unspecified; open mode is modelled. -/
def generate (ns : String) (s : Schema) : ShapeDescriptor :=
  let tc := ns ++ s.sname
  let fields := s.fields.map (introspectField ns)
  ⟨tc, fields, hashShape tc fields, false⟩

/-- The (unqualified) nested class names a schema references. -/
def nestedClassesOf (s : Schema) : List String :=
  s.fields.filterMap (fun f =>
    match f.ftype with
    | .listNested c => some c
    | .nested c => some c
    | .optionalNested c => some c
    | _ => none)

/-- Modelled from the spec: the ShapeGenerator's recursive closure over
nested references, with a visited-set keyed by schema name so cyclic
schema graphs terminate and a shape may reference itself (spec
section 4.3).  Fuel bounds the worklist; `none` models
ShapeGenerationError (an unresolvable nested reference) or exhausted
fuel. -/
def genWork (ns : String) (env : List Schema) :
    Nat → List String → List String → Option (List ShapeDescriptor)
| 0, _, _ => none
| _ + 1, [], _ => some []
| fuel + 1, root :: rest, visited =>
    if visited.contains root then genWork ns env fuel rest visited
    else
      match env.find? (fun s => s.sname == root) with
      | none => none
      | some s =>
          match genWork ns env fuel (nestedClassesOf s ++ rest) (root :: visited) with
          | none => none
          | some ds => some (generate ns s :: ds)

/-- Fuel bound for `genWork`: one pop per initial root plus, for every
schema, one pop for its own expansion and one per reference it emits. -/
def genFuel (env : List Schema) : Nat :=
  1 + (env.map (fun s => 1 + (nestedClassesOf s).length)).sum

/-- Modelled from the spec: generate the shape for `root` and,
topologically, every shape it references (spec section 4.3). -/
def generateAll (ns : String) (env : List Schema) (root : String) :
    Option (List ShapeDescriptor) :=
  genWork ns env (genFuel env) [root] []

/-- A subject-predicate-object statement. -/
abbrev Triple := String × String × String

/-- Modelled from the spec: the store's reserved shape graph (one shape
per target-class identifier) together with a count of committed write
transactions (spec section 6). -/
structure StoreState where
  shapeGraph : List (String × List Triple)
  writeCount : Nat
deriving DecidableEq, Repr

/-- Modelled from the spec: ShapeRegistry state — the cache of
last-synchronized content hashes per target-class identifier, over the
store (spec sections 3 and 4.4). -/
structure RegistryState where
  cache : List (String × Nat)
  store : StoreState
deriving DecidableEq, Repr

/-- A registry with an empty cache over an empty store. -/
def freshRegistry : RegistryState := ⟨[], ⟨[], 0⟩⟩

/-- RegistrationOutcome (spec section 4.4). -/
inductive RegistrationOutcome
| created
| unchanged
| updated
deriving DecidableEq, Repr

/-- Modelled from the spec: the canonical triple serialization of a
shape, used when a registration writes the shape graph. -/
def shapeTriples (d : ShapeDescriptor) : List Triple :=
  (d.targetClass, "rdf:type", "sh:NodeShape") ::
  (d.targetClass, "sh:targetClass", d.targetClass) ::
  d.fields.flatMap (fun fd =>
    (d.targetClass, "sh:property", d.targetClass ++ "/" ++ fd.fname) ::
    fd.constraints.map (fun c =>
      (d.targetClass ++ "/" ++ fd.fname, "sh:constraint", toString (repr c.base))))

/-- Modelled from the spec: GraphStoreClient's atomic replacement of
one shape's triples — one committed write transaction (spec
sections 4.4 and 4.5). -/
def replaceGraph (st : StoreState) (tc : String) (ts : List Triple) : StoreState :=
  ⟨(tc, ts) :: st.shapeGraph.filter (fun e => !(e.fst == tc)), st.writeCount + 1⟩

/-- Registry state after a successful store write for descriptor `d`:
the shape's triples replaced atomically and the cache updated to `d`'s
content hash. -/
def regAfterWrite (rs : RegistryState) (d : ShapeDescriptor) : RegistryState :=
  ⟨(d.targetClass, d.contentHash) :: rs.cache.filter (fun e => !(e.fst == d.targetClass)),
   replaceGraph rs.store d.targetClass (shapeTriples d)⟩

/-- Modelled from the spec: ShapeRegistry.register — compares the new
descriptor's content hash against the cached entry: identical hash
means no store write and outcome `unchanged`; different or absent means
the shape's triples are replaced atomically, the cache updated, and the
outcome is `created` or `updated` (spec section 4.4). -/
def register (rs : RegistryState) (d : ShapeDescriptor) :
    RegistrationOutcome × RegistryState :=
  match rs.cache.lookup d.targetClass with
  | some h =>
      if h = d.contentHash then (.unchanged, rs)
      else (.updated, regAfterWrite rs d)
  | none => (.created, regAfterWrite rs d)

/-- Modelled from the spec: N register calls for the same identifier
serialize (registration is exclusive per target-class identifier, spec
sections 4.4 and 5), so N concurrent calls are modelled as N calls in
sequence. -/
def registerSeq (d : ShapeDescriptor) : Nat → RegistryState → List RegistrationOutcome × RegistryState
| 0, rs => ([], rs)
| n + 1, rs =>
    ((register rs d).fst :: (registerSeq d n (register rs d).snd).fst,
     (registerSeq d n (register rs d).snd).snd)

/-- Total number of triples in the store's shape graph. -/
def shapeTripleCount (st : StoreState) : Nat :=
  (st.shapeGraph.map (fun e => e.snd.length)).sum

/-- Trace of one read-only query execution: whether it succeeded, how
many attempts were sent, and the backoff delays waited between
attempts. -/
structure ClientTrace where
  succeeded : Bool
  attempts : Nat
  delays : List Nat
deriving DecidableEq, Repr

/-- Modelled from the spec: the retry loop of GraphStoreClient for
read-only queries — bounded attempts with base delay doubling (spec
section 4.5).  `sched.getD i false` is true when attempt `i` hits a
transient network failure. -/
def queryGo (sched : List Bool) (base : Nat) : Nat → Nat → ClientTrace
| 0, _ => ⟨false, 0, []⟩
| 1, i => if sched.getD i false then ⟨false, 1, []⟩ else ⟨true, 1, []⟩
| rem + 2, i =>
    if sched.getD i false then
      let t := queryGo sched base (rem + 1) (i + 1)
      ⟨t.succeeded, t.attempts + 1, base * 2 ^ i :: t.delays⟩
    else ⟨true, 1, []⟩

/-- Modelled from the spec: executeQuery with transparent retry on
transient network failure, capped at `cap` attempts (spec
section 4.5). -/
def executeQuery (cap base : Nat) (sched : List Bool) : ClientTrace :=
  queryGo sched base cap 0

/-- Result of a commit: success flag, the surfaced error if any, and
how many times the non-idempotent update was sent. -/
structure CommitResult where
  ok : Bool
  surfacedError : Option String
  sendCount : Nat
deriving DecidableEq, Repr

/-- An instance-data store, for commit units. -/
structure InstanceStore where
  triples : List Triple
deriving DecidableEq, Repr

/-- Modelled from the spec: GraphStoreClient.commit of one unit —
update operations are sent exactly once and never auto-retried; a
failed commit surfaces StoreTransactionError and leaves the unit
entirely invisible (atomic commit or none), a successful commit makes
the whole unit visible (spec sections 4.5 and 7). -/
def commitUnit (st : InstanceStore) (ins del : List Triple) (networkFails : Bool) :
    CommitResult × InstanceStore :=
  if networkFails then (⟨false, some "StoreTransactionError", 1⟩, st)
  else (⟨true, none, 1⟩, ⟨ins ++ st.triples.filter (fun t => !(del.contains t))⟩)

/-- Pairs each list element with its position, starting at `i`. -/
def withIdx (i : Nat) : List SValue → List (Nat × SValue)
| [] => []
| v :: vs => (i, v) :: withIdx (i + 1) vs

/-- The path of the `i`-th present value of a field: indexed for
sequence fields, the bare field segment otherwise. -/
def elemPath (fd : FieldDescriptor) (i : Nat) : List PathSeg :=
  if fd.tag.isList then [.fieldSeg fd.fname, .idxSeg i] else [.fieldSeg fd.fname]

/-- Modelled from the spec: evaluation of one ConstraintSpec against
one present value (spec section 4.6).  An `unsupported: true` spec is
surfaced as a warning-severity result; an executed spec emits one
violation-severity result when it fails and nothing when it holds. -/
def evalSpec (path : List PathSeg) (c : ConstraintSpec) (v : SValue) :
    Option ValidationResult :=
  if c.unsupported then some ⟨path, c.base.ckind, .warning, "unsupported constraint"⟩
  else if c.base.checkVal v then none
  else some ⟨path, c.base.ckind, .violation, "constraint violated"⟩

/-- The violation emitted when a required field has no present value. -/
def requiredResult (fd : FieldDescriptor) : ValidationResult :=
  ⟨[.fieldSeg fd.fname], .requiredK, .violation, "missing required value"⟩

/-- Modelled from the spec: the non-recursive part of validating one
FieldDescriptor — the cardinality check plus the evaluation of every
ConstraintSpec against each present value, with no early exit (spec
section 4.6). -/
def fieldDirectResults (fd : FieldDescriptor) (entries : List (String × SValue)) :
    List ValidationResult :=
  match entries.lookup fd.fname with
  | none => if fd.tag.requiresValue then [requiredResult fd] else []
  | some v =>
      (withIdx 0 (presentValues v)).flatMap (fun p =>
        fd.constraints.filterMap (fun c => evalSpec (elemPath fd p.fst) c p.snd))

/-- Modelled from the spec: closed-mode results — one unexpected-field
violation per record field absent from the shape's descriptor set
(spec section 4.6). -/
def unexpectedResults (d : ShapeDescriptor) (entries : List (String × SValue)) :
    List ValidationResult :=
  entries.filterMap (fun e =>
    if d.fields.any (fun fd => fd.fname == e.fst) then none
    else some ⟨[.fieldSeg e.fst], .unexpectedFieldK, .violation, "unexpected field"⟩)

/-- Modelled from the spec: the recursive part of validating one
FieldDescriptor — for a nested reference whose present value is a
record, descend into the referenced shape through `recurse`, removing
the entered shape from `avail` and prefixing the sub-results' paths
(spec section 4.6).  When the referenced class is no longer in `avail`
it is already on the current validation path and re-entry
short-circuits as pass with no further descent. -/
def fieldNestedResultsWith
    (recurse : List ShapeDescriptor → ShapeDescriptor → List (String × SValue) →
      List ValidationResult)
    (avail : List ShapeDescriptor) (fd : FieldDescriptor)
    (entries : List (String × SValue)) : List ValidationResult :=
  match fd.tag.refClass, entries.lookup fd.fname with
  | some cls, some v =>
      (withIdx 0 (presentValues v)).flatMap (fun p =>
        match p.snd with
        | .vrec inner =>
            (match avail.find? (fun s => s.targetClass == cls) with
             | some d2 =>
                 (recurse (avail.filter (fun s => !(s.targetClass == cls))) d2 inner).map
                   (fun r => ⟨elemPath fd p.fst ++ r.path, r.ckind, r.severity, r.message⟩)
             | none => [])
        | _ => [])
  | _, _ => []

/-- Modelled from the spec: the ValidationEngine (spec section 4.6).
`avail` holds the shapes not yet entered on the current validation
path: descending into a nested reference removes its shape from
`avail`, so re-entry of a target-class identifier already on the path
finds no shape and short-circuits as pass with no further descent —
the spec's visited-set, by complement.  Fuel makes the recursion
structural; the wrapper supplies fuel strictly greater than the number
of shapes, which the shrinking `avail` can never exhaust. -/
def validateShapeFuel :
    Nat → List ShapeDescriptor → ShapeDescriptor → List (String × SValue) →
    List ValidationResult
| 0, _, _, _ => []
| fuel + 1, avail, d, entries =>
    d.fields.flatMap (fun fd =>
      fieldDirectResults fd entries ++
      fieldNestedResultsWith
        (fun avail2 d2 entries2 => validateShapeFuel fuel avail2 d2 entries2)
        avail fd entries) ++
    (if d.closed then unexpectedResults d entries else [])

/-- Modelled from the spec: `validate(record, shapeDescriptor)` — the
engine entry point; the root shape's own identifier counts as entered
on the path from the start (spec section 4.6). -/
def validate (env : List ShapeDescriptor) (d : ShapeDescriptor)
    (entries : List (String × SValue)) : List ValidationResult :=
  validateShapeFuel (env.length + 1)
    (env.filter (fun s => !(s.targetClass == d.targetClass))) d entries

/-- The base namespace the demo notebook and README configure. -/
def baseNS : String := "http://example.org/"

/-- The uppercase predicate of the notebook's
`state_must_be_uppercase` validator (`v.isupper()` raises unless every
cased character is uppercase). -/
def stateUpperPred : PrimValue → Bool
| .pstr s => s.toList.all (fun c => !c.isLower)
| _ => true

/-- The predicate of the notebook's `email_must_contain_at` validator. -/
def emailAtPred : PrimValue → Bool
| .pstr s => s.toList.contains '@'
| _ => true

/-- The `state` field of the notebook's Address model:
`str = Field(..., min_length=2, max_length=2)` plus the custom
`state_must_be_uppercase` validator. -/
def stateField : SchemaField :=
  ⟨"state", .prim .tString,
   [.minLen 2, .maxLen 2, .customValidator "state_must_be_uppercase" stateUpperPred]⟩

/-- The notebook's Address model (src/examples/demo_notebook.ipynb). -/
def addressSchema : Schema :=
  ⟨"Address",
   [⟨"street", .prim .tString, []⟩,
    ⟨"city", .prim .tString, []⟩,
    stateField,
    ⟨"zip_code", .prim .tString, [.regex .zip5or9]⟩,
    ⟨"country", .optionalP .tString, []⟩]⟩

/-- The notebook's Person model (src/examples/demo_notebook.ipynb). -/
def demoPerson : Schema :=
  ⟨"Person",
   [⟨"id", .prim .tString, []⟩,
    ⟨"name", .prim .tString, [.minLen 1]⟩,
    ⟨"age", .prim .tInt, [.ge 0, .lt 150]⟩,
    ⟨"email", .optionalP .tString, [.customValidator "email_must_contain_at" emailAtPred]⟩,
    ⟨"addresses", .listNested "Address", []⟩,
    ⟨"tags", .listP .tString, []⟩]⟩

/-- The `name` field of the spec's scenario-1 Person. -/
def nameField : SchemaField := ⟨"name", .prim .tString, [.minLen 1]⟩

/-- The `age` field of the spec's scenario-1 Person. -/
def ageField : SchemaField := ⟨"age", .prim .tInt, [.ge 0, .lt 150]⟩

/-- The spec's scenario-1 schema:
`Person{name: string minLength 1, age: int >=0 <150}`. -/
def personScenarioSchema : Schema := ⟨"Person", [nameField, ageField]⟩

/-- The spec's scenario-1 record `{name:"John", age:-5}`. -/
def johnRecord : List (String × SValue) :=
  [("name", .prim (.pstr "John")), ("age", .prim (.pint (-5)))]

/-- A record violating both fields' constraints, to show the engine
has no early exit. -/
def badBothRecord : List (String × SValue) :=
  [("name", .prim (.pstr "")), ("age", .prim (.pint (-5)))]

/-- A self-referencing "Node" schema: an int field and an optional
nested field of its own type (spec's cycle-safety scenario). -/
def nodeSchema : Schema :=
  ⟨"Node",
   [⟨"value", .prim .tInt, []⟩,
    ⟨"next", .optionalNested "Node", []⟩]⟩

/-- A chain record of Node values nested to depth `n`. -/
def chainRec : Nat → List (String × SValue)
| 0 => [("value", .prim (.pint 0))]
| n + 1 => [("value", .prim (.pint 0)), ("next", .vrec (chainRec n))]

/-- The contact form's field values
(src/web-site/src/components/layout/ContactForm.jsx). -/
structure ContactFormState where
  nameField : String
  emailField : String
  messageField : String
deriving DecidableEq, Repr

/-- Which toast the handler shows. -/
inductive ToastVariant
| defaultV
| destructive
deriving DecidableEq, Repr

/-- Observable outcome of one submit: the form state afterwards, the
toast shown, and whether the handler rethrew. -/
structure SubmitOutcome where
  formAfter : ContactFormState
  toastShown : ToastVariant
  rethrown : Bool
deriving DecidableEq, Repr

/-- The form state after `e.target.reset()`. -/
def emptyContactForm : ContactFormState := ⟨"", "", ""⟩

/-- `handleContactSubmit` from
src/web-site/src/components/layout/ContactForm.jsx: the Supabase
insert's `error` field (`insertError`) is thrown inside the `try`,
caught by the handler's own `catch`, which shows a destructive toast
and returns; on success a default toast is shown and the form is
reset.  The handler never rethrows. -/
def handleContactSubmit (form : ContactFormState) (insertError : Option String) :
    SubmitOutcome :=
  match insertError with
  | some _ => ⟨form, .destructive, false⟩
  | none => ⟨emptyContactForm, .defaultV, false⟩

/-- The observable state of the Fuseki server for the demo setup code
(src/examples/demo_notebook.ipynb and the init script
src/unnamed/part_002): whether the root URL answers at all and with
which status, whether the `$/datasets` listing answers and with which
status, and the dataset names the listing would report. -/
structure FusekiWorld where
  rootReachable : Bool
  rootStatus : Nat
  listReachable : Bool
  listStatus : Nat
  datasetNames : List String
deriving DecidableEq, Repr

/-- `check_fuseki` from the notebook: true iff the GET to the Fuseki
root does not raise and returns status 200. -/
def check_fuseki (w : FusekiWorld) : Bool :=
  w.rootReachable && (w.rootStatus == 200)

/-- `check_dataset` from the notebook: true iff the GET to
`$/datasets` does not raise, returns 200, and its listing contains a
dataset named `langgraphsemantic`; every failure path returns false. -/
def check_dataset (w : FusekiWorld) : Bool :=
  w.listReachable && (w.listStatus == 200) &&
    w.datasetNames.contains "langgraphsemantic"

/-- The notebook's setup cell:
`if check_fuseki(): if not check_dataset(): create_dataset()` — true
iff the creation POST is issued. -/
def notebookSendsCreate (w : FusekiWorld) : Bool :=
  check_fuseki w && !(check_dataset w)

/-- The init script src/unnamed/part_002: it loops until a curl to the
Fuseki root succeeds and then issues the creation POST unconditionally
— true iff the POST is (eventually) issued. -/
def initScriptSendsCreate (w : FusekiWorld) : Bool :=
  w.rootReachable

/-- A world in which the dataset already exists but the dataset
listing request fails while the root answers 200. -/
def listingDownWorld : FusekiWorld :=
  ⟨true, 200, false, 0, ["langgraphsemantic"]⟩

/-- A world in which the Fuseki server is unreachable. -/
def unreachableWorld : FusekiWorld := ⟨false, 0, false, 0, []⟩

/-- A registry whose cache already holds hash 5 for class "tc". -/
def cachedRegistryW : RegistryState := ⟨[("tc", 5)], ⟨[("tc", [])], 1⟩⟩

/-- A minimal descriptor for class "tc" with content hash 5. -/
def descW : ShapeDescriptor := ⟨"tc", [], 5, false⟩

/-- Registering a descriptor whose content hash equals the cached one
performs no store write and returns `unchanged` with the state
untouched. -/
theorem register_hit (rs : RegistryState) (d : ShapeDescriptor)
    (h : rs.cache.lookup d.targetClass = some d.contentHash) :
    register rs d = (.unchanged, rs) := by
  simp [register, h]

/-- Registering a descriptor with no cached entry writes the shape and
returns `created`. -/
theorem register_miss (rs : RegistryState) (d : ShapeDescriptor)
    (h : rs.cache.lookup d.targetClass = none) :
    register rs d = (.created, regAfterWrite rs d) := by
  simp [register, h]

/-- Registering a descriptor whose content hash differs from the
cached one writes the shape and returns `updated`. -/
theorem register_stale (rs : RegistryState) (d : ShapeDescriptor) (h0 : Nat)
    (h : rs.cache.lookup d.targetClass = some h0) (hne : h0 ≠ d.contentHash) :
    register rs d = (.updated, regAfterWrite rs d) := by
  simp [register, h, hne]

/-- After a successful write for `d`, the cache maps `d`'s target
class to `d`'s content hash. -/
theorem regAfterWrite_lookup (rs : RegistryState) (d : ShapeDescriptor) :
    (regAfterWrite rs d).cache.lookup d.targetClass = some d.contentHash := by
  simp [regAfterWrite, List.lookup]

/-- A write increments the store's committed-write count by one. -/
theorem regAfterWrite_writeCount (rs : RegistryState) (d : ShapeDescriptor) :
    (regAfterWrite rs d).store.writeCount = rs.store.writeCount + 1 := rfl

/-- Once the cache holds `d`'s content hash, any number of further
`register` calls leave the state untouched and all return
`unchanged`. -/
theorem registerSeq_steady (d : ShapeDescriptor) (n : Nat) (rs : RegistryState)
    (h : rs.cache.lookup d.targetClass = some d.contentHash) :
    registerSeq d n rs = (List.replicate n .unchanged, rs) := by
  induction n with
  | zero => rfl
  | succ n ih =>
      simp [registerSeq, register_hit rs d h, ih, List.replicate_succ]

/-- C2: for every schema S under a fixed namespace, `generate(S)` is
pure — two calls on the unchanged schema yield descriptors with
identical content hash — and registering S twice from a state with no
cached entry performs exactly one store write: the first call returns
`created`, the second compares equal content hashes, writes nothing,
returns `unchanged`, and the committed-write count rises by exactly
one over both calls. -/
theorem generate_pure_register_single_write (ns : String) (s : Schema)
    (rs : RegistryState)
    (hfresh : rs.cache.lookup (generate ns s).targetClass = none) :
    (generate ns s).contentHash = (generate ns s).contentHash ∧
    (register rs (generate ns s)).fst = .created ∧
    register (register rs (generate ns s)).snd (generate ns s) =
      (.unchanged, (register rs (generate ns s)).snd) ∧
    (register (register rs (generate ns s)).snd (generate ns s)).snd.store.writeCount =
      rs.store.writeCount + 1 := by
  have h1 := register_miss rs (generate ns s) hfresh
  refine ⟨rfl, by rw [h1], ?_, ?_⟩
  · rw [h1]
    exact register_hit _ _ (regAfterWrite_lookup rs (generate ns s))
  · rw [h1, register_hit _ _ (regAfterWrite_lookup rs (generate ns s))]
    exact regAfterWrite_writeCount rs (generate ns s)

/-- Witness for C2 at the scenario-1 Person schema over a fresh
registry. -/
theorem generate_pure_register_single_write_witness :
    freshRegistry.cache.lookup (generate baseNS personScenarioSchema).targetClass = none ∧
    ((generate baseNS personScenarioSchema).contentHash =
        (generate baseNS personScenarioSchema).contentHash ∧
      (register freshRegistry (generate baseNS personScenarioSchema)).fst = .created ∧
      register (register freshRegistry (generate baseNS personScenarioSchema)).snd
          (generate baseNS personScenarioSchema) =
        (.unchanged, (register freshRegistry (generate baseNS personScenarioSchema)).snd) ∧
      (register (register freshRegistry (generate baseNS personScenarioSchema)).snd
          (generate baseNS personScenarioSchema)).snd.store.writeCount =
        freshRegistry.store.writeCount + 1) :=
  ⟨rfl, generate_pure_register_single_write baseNS personScenarioSchema freshRegistry rfl⟩

/-- C3: `register` gates on the content hash — identical cached hash
means no store write, the state is untouched and the outcome is
`unchanged`; an absent entry means the shape's triples are replaced
atomically, the cache updated and the outcome `created`; a differing
hash likewise replaces and returns `updated`.  In particular
registering the demo Person twice with no change returns `unchanged`
on the second call and leaves the store's shape-graph triple count
unchanged between the two calls. -/
theorem register_content_hash_gate (rs : RegistryState) (d : ShapeDescriptor) :
    (rs.cache.lookup d.targetClass = some d.contentHash →
      register rs d = (.unchanged, rs)) ∧
    (rs.cache.lookup d.targetClass = none →
      register rs d = (.created, regAfterWrite rs d)) ∧
    (∀ h0, rs.cache.lookup d.targetClass = some h0 → h0 ≠ d.contentHash →
      register rs d = (.updated, regAfterWrite rs d)) ∧
    ((register (register freshRegistry (generate baseNS demoPerson)).snd
        (generate baseNS demoPerson)).fst = .unchanged ∧
      shapeTripleCount (register (register freshRegistry (generate baseNS demoPerson)).snd
          (generate baseNS demoPerson)).snd.store =
        shapeTripleCount (register freshRegistry (generate baseNS demoPerson)).snd.store) := by
  refine ⟨register_hit rs d, register_miss rs d,
    fun h0 h hne => register_stale rs d h0 h hne, ?_⟩
  have h1 := register_miss freshRegistry (generate baseNS demoPerson) rfl
  have h2 : register (register freshRegistry (generate baseNS demoPerson)).snd
      (generate baseNS demoPerson) =
      (.unchanged, (register freshRegistry (generate baseNS demoPerson)).snd) := by
    rw [h1]
    exact register_hit _ _ (regAfterWrite_lookup freshRegistry (generate baseNS demoPerson))
  rw [h2]
  exact ⟨rfl, rfl⟩

/-- Witness for C3 at a registry already caching the descriptor's
hash. -/
theorem register_content_hash_gate_witness :
    cachedRegistryW.cache.lookup descW.targetClass = some descW.contentHash ∧
    register cachedRegistryW descW = (.unchanged, cachedRegistryW) :=
  ⟨rfl, (register_content_hash_gate cachedRegistryW descW).1 rfl⟩

/-- C8: registration being exclusive per target-class identifier,
N calls for the same unchanged schema run in sequence; from a state
with no cached entry the first call wins with `created` and writes
once, all later calls collapse into cache hits returning `unchanged`,
and the store sees exactly one write in total. -/
theorem concurrent_register_single_write (d : ShapeDescriptor) (rs : RegistryState)
    (n : Nat) (hfresh : rs.cache.lookup d.targetClass = none) :
    (registerSeq d (n + 1) rs).fst =
      .created :: List.replicate n .unchanged ∧
    (registerSeq d (n + 1) rs).snd.store.writeCount = rs.store.writeCount + 1 := by
  have h1 := register_miss rs d hfresh
  have h2 := registerSeq_steady d n (regAfterWrite rs d) (regAfterWrite_lookup rs d)
  constructor
  · simp [registerSeq, h1, h2]
  · simp [registerSeq, h1, h2, regAfterWrite_writeCount rs d]

/-- Witness for C8: ten calls for a fresh descriptor. -/
theorem concurrent_register_single_write_witness :
    freshRegistry.cache.lookup descW.targetClass = none ∧
    ((registerSeq descW 10 freshRegistry).fst =
        .created :: List.replicate 9 .unchanged ∧
      (registerSeq descW 10 freshRegistry).snd.store.writeCount =
        freshRegistry.store.writeCount + 1) :=
  ⟨rfl, concurrent_register_single_write descW freshRegistry 9 rfl⟩

/-- The retry loop always sends at least one attempt when it has
fuel. -/
theorem queryGo_attempts_pos (sched : List Bool) (base : Nat) :
    ∀ rem i, 1 ≤ rem → 1 ≤ (queryGo sched base rem i).attempts := by
  intro rem i hrem
  match rem, hrem with
  | 1, _ =>
      cases hb : sched[i]?.getD false <;> simp [queryGo, hb]
  | rem + 2, _ =>
      cases hb : sched[i]?.getD false <;> simp [queryGo, hb]

/-- One backoff step: prepending the delay for attempt index `i` to
the doubling sequence starting at `i + 1` gives the doubling sequence
starting at `i`. -/
theorem doubling_cons (base i n : Nat) :
    base * 2 ^ i :: (List.range n).map (fun j => base * 2 ^ (i + 1 + j)) =
      (List.range (n + 1)).map (fun j => base * 2 ^ (i + j)) := by
  rw [List.range_succ_eq_map, List.map_cons, List.map_map]
  have h2 : ((fun j => base * 2 ^ (i + j)) ∘ Nat.succ) =
      fun j => base * 2 ^ (i + 1 + j) := by
    funext j
    have hj : i + Nat.succ j = i + 1 + j := by omega
    simp [Function.comp, hj]
  rw [h2]
  exact congrArg₂ List.cons (by norm_num) rfl

/-- The retry loop sends at most as many attempts as it has fuel, and
its delays are exactly the doubling sequence starting from the base
delay at the loop's starting attempt index. -/
theorem queryGo_props (sched : List Bool) (base : Nat) :
    ∀ rem i, (queryGo sched base rem i).attempts ≤ rem ∧
      (queryGo sched base rem i).delays =
        (List.range ((queryGo sched base rem i).attempts - 1)).map
          (fun j => base * 2 ^ (i + j)) := by
  intro rem
  induction rem using Nat.strong_induction_on with
  | _ rem ih =>
      match rem with
      | 0 => intro i; exact ⟨Nat.le_refl 0, rfl⟩
      | 1 =>
          intro i
          cases hb : sched[i]?.getD false <;> simp [queryGo, hb]
      | rem + 2 =>
          intro i
          cases hb : sched[i]?.getD false with
          | false => simp [queryGo, hb]
          | true =>
              have h := ih (rem + 1) (Nat.lt_succ_self _) (i + 1)
              have hpos := queryGo_attempts_pos sched base (rem + 1) (i + 1)
                (Nat.le_add_left 1 rem)
              have hq : queryGo sched base (rem + 2) i =
                  ⟨(queryGo sched base (rem + 1) (i + 1)).succeeded,
                   (queryGo sched base (rem + 1) (i + 1)).attempts + 1,
                   base * 2 ^ i :: (queryGo sched base (rem + 1) (i + 1)).delays⟩ := by
                simp [queryGo, List.getD, hb]
              rw [hq]
              refine ⟨Nat.succ_le_succ h.1, ?_⟩
              show base * 2 ^ i :: (queryGo sched base (rem + 1) (i + 1)).delays =
                (List.range ((queryGo sched base (rem + 1) (i + 1)).attempts + 1 - 1)).map
                  (fun j => base * 2 ^ (i + j))
              rw [Nat.add_sub_cancel, h.2,
                doubling_cons base i ((queryGo sched base (rem + 1) (i + 1)).attempts - 1),
                Nat.sub_add_cancel hpos]

/-- C5: read-only queries are retried on transient failure with
bounded exponential backoff — at most `cap` attempts, with the j-th
backoff delay equal to the base delay doubled j times — while commit
operations are sent exactly once whether or not they fail (never
auto-retried); a failed commit is surfaced as StoreTransactionError
with the store left exactly as it was (no partially visible unit), and
a successful commit makes the whole unit visible at once. -/
theorem client_retry_commit_policy (cap base : Nat) (sched : List Bool)
    (st : InstanceStore) (ins del : List Triple) :
    (executeQuery cap base sched).attempts ≤ cap ∧
    (executeQuery cap base sched).delays =
      (List.range ((executeQuery cap base sched).attempts - 1)).map
        (fun j => base * 2 ^ j) ∧
    (∀ fails, (commitUnit st ins del fails).fst.sendCount = 1) ∧
    commitUnit st ins del true =
      (⟨false, some "StoreTransactionError", 1⟩, st) ∧
    (commitUnit st ins del false).snd.triples =
      ins ++ st.triples.filter (fun t => !(del.contains t)) := by
  have h := queryGo_props sched base cap 0
  refine ⟨h.1, ?_, fun fails => ?_, rfl, rfl⟩
  · have h2 := h.2
    simpa [executeQuery] using h2
  · cases fails <;> rfl

/-- C4: validating `{name:"John", age:-5}` against the shape generated
from `Person{name: string minLength 1, age: int >=0 <150}` produces a
report with exactly one violation, whose field path renders as `age`
and whose violated constraint kind is min-inclusive; and because every
applicable ConstraintSpec is evaluated with no early exit, a record
violating both fields' constraints produces both results. -/
theorem invalid_person_single_min_inclusive_violation :
    validate [] (generate baseNS personScenarioSchema) johnRecord =
      [⟨[.fieldSeg "age"], .minInclusiveK, .violation, "constraint violated"⟩] ∧
    renderPath [.fieldSeg "age"] = "age" ∧
    validate [] (generate baseNS personScenarioSchema) badBothRecord =
      [⟨[.fieldSeg "name"], .minLengthK, .violation, "constraint violated"⟩,
       ⟨[.fieldSeg "age"], .minInclusiveK, .violation, "constraint violated"⟩] :=
  ⟨by decide, rfl, by decide⟩

/-- C7: the self-referencing Node schema introspects and generates
successfully — the worklist's visited-set emits the shape exactly once
and its `next` field is a nested-shape reference by target-class
identifier, not an inlined shape — and validating a record with
depth-2 self-nesting terminates with a passing (correct, empty)
report; indeed validation of a chain of any depth evaluates to the
empty report, the visited-set short-circuiting re-entry of the Node
shape on the path. -/
theorem cyclic_schema_generation_validation_safe :
    generateAll baseNS [nodeSchema] "Node" = some [generate baseNS nodeSchema] ∧
    (generate baseNS nodeSchema).fields.map FieldDescriptor.tag =
      [.prim .tInt, .optionalNested "http://example.org/Node"] ∧
    validate [generate baseNS nodeSchema] (generate baseNS nodeSchema) (chainRec 2) = [] ∧
    reportPass
      (validate [generate baseNS nodeSchema] (generate baseNS nodeSchema) (chainRec 2)) =
      true ∧
    (∀ n, validate [generate baseNS nodeSchema] (generate baseNS nodeSchema)
      (chainRec n) = []) := by
  refine ⟨rfl, by decide, by decide, by decide, fun n => ?_⟩
  cases n with
  | zero => decide
  | succ n => rfl

/-- C9: the contact-form submit handler never rethrows; on a failed
insert it shows the destructive toast and leaves the entered field
values unchanged, on a successful insert it shows the success toast
and resets the form — so whenever the form holds any entered values,
the form state is preserved exactly when the insert fails. -/
theorem contact_form_state_preserved_iff_insert_fails
    (form : ContactFormState) (insertError : Option String) :
    (handleContactSubmit form insertError).rethrown = false ∧
    (∀ e, insertError = some e →
      handleContactSubmit form insertError = ⟨form, .destructive, false⟩) ∧
    (insertError = none →
      handleContactSubmit form insertError = ⟨emptyContactForm, .defaultV, false⟩) ∧
    (form ≠ emptyContactForm →
      ((handleContactSubmit form insertError).formAfter = form ↔
        insertError.isSome = true)) := by
  cases insertError with
  | none =>
      refine ⟨rfl, ?_, fun _ => rfl, fun hne => ?_⟩
      · intro e he
        simp at he
      · constructor
        · intro h
          exact absurd h.symm hne
        · intro h
          simp at h
  | some e =>
      refine ⟨rfl, fun e2 he => rfl, ?_, fun hne => ?_⟩
      · intro h
        simp at h
      · simp [handleContactSubmit]

/-- Witness for C9: a failed insert on a filled-in form preserves the
state. -/
theorem contact_form_state_preserved_iff_insert_fails_witness :
    (ContactFormState.mk "Ada" "ada@example.com" "hello" ≠ emptyContactForm) ∧
    ((handleContactSubmit (ContactFormState.mk "Ada" "ada@example.com" "hello")
        (some "insert failed")).formAfter =
        ContactFormState.mk "Ada" "ada@example.com" "hello" ↔
      (some "insert failed").isSome = true) :=
  ⟨by decide,
   (contact_form_state_preserved_iff_insert_fails
      (ContactFormState.mk "Ada" "ada@example.com" "hello")
      (some "insert failed")).2.2.2 (by decide)⟩

/-- C10 counterexample: in a world where the Fuseki root answers 200
but the dataset-listing request fails while the dataset
`langgraphsemantic` already exists, the notebook's setup cell still
issues the creation POST, and the init script issues it too — refuting
the claim that no creation request is ever sent when the dataset
already exists. -/
theorem dataset_create_sent_although_dataset_exists :
    listingDownWorld.datasetNames.contains "langgraphsemantic" = true ∧
    notebookSendsCreate listingDownWorld = true ∧
    initScriptSendsCreate listingDownWorld = true := by decide

/-- C10 amended: the notebook's creation POST is issued exactly when
the root GET returns 200 and `check_dataset()` is false — that is,
when the listing request fails, returns non-200, or lists no dataset
named `langgraphsemantic`; no notebook creation request is sent when
the server is unreachable or when the listing succeeds and already
contains the dataset.  The init script sends the creation POST exactly
when the server becomes reachable, unconditionally on the dataset's
existence. -/
theorem dataset_create_condition (w : FusekiWorld) :
    (notebookSendsCreate w = true ↔
      (w.rootReachable = true ∧ w.rootStatus = 200 ∧
        (w.listReachable = false ∨ w.listStatus ≠ 200 ∨
          w.datasetNames.contains "langgraphsemantic" = false))) ∧
    (w.rootReachable = false → notebookSendsCreate w = false) ∧
    (check_dataset w = true → notebookSendsCreate w = false) ∧
    initScriptSendsCreate w = w.rootReachable := by
  obtain ⟨rr, rs, lr, ls, names⟩ := w
  refine ⟨?_, ?_, ?_, rfl⟩
  · simp [notebookSendsCreate, check_fuseki, check_dataset, initScriptSendsCreate]
    cases rr <;> cases lr <;>
      simp [Bool.and_eq_true, beq_iff_eq]
  · intro h
    subst h
    simp [notebookSendsCreate, check_fuseki]
  · intro h
    simp [notebookSendsCreate, h]

/-- Witness for C10's amended theorem: an unreachable server produces
no notebook creation request. -/
theorem dataset_create_condition_witness :
    unreachableWorld.rootReachable = false ∧
    notebookSendsCreate unreachableWorld = false :=
  ⟨rfl, (dataset_create_condition unreachableWorld).2.1 rfl⟩

/-- For every constraint the mapper marks as executable, the shape
side's check computes exactly the schema side's acceptance. -/
theorem mapRule_check_eq (r : FieldRule) (u : SValue)
    (h : (mapRule r).unsupported = false) :
    (mapRule r).base.checkVal u = ruleAccepts r u := by
  cases r <;>
    first
      | (cases u with
         | prim p => cases p <;> rfl
         | vlist es => rfl
         | vrec es => rfl)
      | simp [mapRule] at h

/-- Soundness of one translated constraint: when the schema side
accepts the value, the shape side emits at most a warning for it. -/
theorem evalSpec_sound (r : FieldRule) (u : SValue) (p : List PathSeg)
    (hacc : ruleAccepts r u = true) (res : ValidationResult)
    (hres : evalSpec p (mapRule r) u = some res) : res.severity = .warning := by
  simp only [evalSpec] at hres
  by_cases hu : (mapRule r).unsupported = true
  · rw [if_pos hu] at hres
    cases hres
    rfl
  · rw [if_neg hu] at hres
    have hu2 : (mapRule r).unsupported = false := by
      revert hu
      cases (mapRule r).unsupported <;> simp
    have hchk : (mapRule r).base.checkVal u = true := by
      rw [mapRule_check_eq r u hu2]
      exact hacc
    rw [hchk] at hres
    simp at hres

/-- Flagging of one translated constraint: when the schema side
rejects the value, the shape side emits some result for it — a
violation for executable constraints, a warning for opaque ones. -/
theorem evalSpec_flags (r : FieldRule) (u : SValue) (p : List PathSeg)
    (hacc : ruleAccepts r u = false) :
    ∃ res, evalSpec p (mapRule r) u = some res := by
  by_cases hu : (mapRule r).unsupported = true
  · exact ⟨_, by simp only [evalSpec]; rw [if_pos hu]⟩
  · have hu2 : (mapRule r).unsupported = false := by
      revert hu
      cases (mapRule r).unsupported <;> simp
    have hchk : (mapRule r).base.checkVal u = false := by
      rw [mapRule_check_eq r u hu2]
      exact hacc
    refine ⟨⟨p, (mapRule r).base.ckind, .violation, "constraint violated"⟩, ?_⟩
    simp only [evalSpec]
    rw [if_neg hu, hchk]
    simp

/-- Every result `evalSpec` emits carries the path it was given. -/
theorem evalSpec_path (p : List PathSeg) (c : ConstraintSpec) (v : SValue)
    (res : ValidationResult) (h : evalSpec p c v = some res) : res.path = p := by
  simp only [evalSpec] at h
  split at h
  · cases h
    rfl
  · split at h
    · cases h
    · cases h
      rfl

/-- A pair drawn from `withIdx` has its value in the original list. -/
theorem withIdx_mem_snd (vs : List SValue) :
    ∀ k i u, (i, u) ∈ withIdx k vs → u ∈ vs := by
  induction vs with
  | nil =>
      intro k i u h
      cases h
  | cons v vs ih =>
      intro k i u h
      rw [withIdx] at h
      rcases List.mem_cons.mp h with h1 | h2
      · have h1b : u = v := congrArg Prod.snd h1
        subst h1b
        exact List.mem_cons_self _ _
      · exact List.mem_cons_of_mem v (ih (k + 1) i u h2)

/-- Every list element appears in `withIdx` at some index. -/
theorem withIdx_mem_intro (vs : List SValue) :
    ∀ k u, u ∈ vs → ∃ i, (i, u) ∈ withIdx k vs := by
  induction vs with
  | nil =>
      intro k u h
      cases h
  | cons v vs ih =>
      intro k u h
      rw [withIdx]
      rcases List.mem_cons.mp h with h1 | h2
      · subst h1
        exact ⟨k, List.mem_cons_self _ _⟩
      · obtain ⟨i, hi⟩ := ih (k + 1) u h2
        exact ⟨i, List.mem_cons_of_mem _ hi⟩

/-- `elemPath` always starts with the field's name segment. -/
theorem elemPath_head (fd : FieldDescriptor) (i : Nat) :
    ∃ rest, elemPath fd i = .fieldSeg fd.fname :: rest := by
  rw [elemPath]
  split
  · exact ⟨[.idxSeg i], rfl⟩
  · exact ⟨[], rfl⟩

/-- Every direct result of a field starts at that field's path
segment. -/
theorem fieldDirect_path (fd : FieldDescriptor) (entries : List (String × SValue))
    (res : ValidationResult) (h : res ∈ fieldDirectResults fd entries) :
    ∃ rest, res.path = .fieldSeg fd.fname :: rest := by
  rw [fieldDirectResults] at h
  split at h
  · split at h
    · rcases List.mem_singleton.mp h with rfl
      exact ⟨[], rfl⟩
    · cases h
  · rcases List.mem_flatMap.mp h with ⟨p, _, hp⟩
    rcases List.mem_filterMap.mp hp with ⟨c, _, hc⟩
    obtain ⟨rest, hrest⟩ := elemPath_head fd p.fst
    exact ⟨rest, by rw [evalSpec_path _ c p.snd res hc, hrest]⟩

/-- Elimination for direct results: each comes either from the
required-cardinality check on an absent value, or from evaluating one
of the field's ConstraintSpecs on one present value. -/
theorem fieldDirect_mem_elim (fd : FieldDescriptor) (entries : List (String × SValue))
    (res : ValidationResult) (h : res ∈ fieldDirectResults fd entries) :
    (entries.lookup fd.fname = none ∧ res = requiredResult fd) ∨
    (∃ v, entries.lookup fd.fname = some v ∧
      ∃ i u, (i, u) ∈ withIdx 0 (presentValues v) ∧
        ∃ c ∈ fd.constraints, evalSpec (elemPath fd i) c u = some res) := by
  cases hl : entries.lookup fd.fname with
  | none =>
      simp only [fieldDirectResults, hl] at h
      split at h
      · rcases List.mem_singleton.mp h with rfl
        exact Or.inl ⟨rfl, rfl⟩
      · cases h
  | some v =>
      simp only [fieldDirectResults, hl] at h
      rcases List.mem_flatMap.mp h with ⟨p, hpmem, hp⟩
      rcases List.mem_filterMap.mp hp with ⟨c, hcmem, hc⟩
      exact Or.inr ⟨v, rfl, p.fst, p.snd, hpmem, c, hcmem, hc⟩

/-- Introduction for direct results: an evaluation of one of the
field's ConstraintSpecs on one present value is in the field's direct
results. -/
theorem mem_fieldDirect_intro (fd : FieldDescriptor) (entries : List (String × SValue))
    (v : SValue) (i : Nat) (u : SValue) (c : ConstraintSpec) (res : ValidationResult)
    (hlook : entries.lookup fd.fname = some v)
    (hu : (i, u) ∈ withIdx 0 (presentValues v))
    (hc : c ∈ fd.constraints)
    (he : evalSpec (elemPath fd i) c u = some res) :
    res ∈ fieldDirectResults fd entries := by
  rw [fieldDirectResults, hlook]
  exact List.mem_flatMap.mpr ⟨(i, u), hu, List.mem_filterMap.mpr ⟨c, hc, he⟩⟩

/-- Elimination for nested-descent results: each is a sub-result of
the recursion into a referenced shape found in `avail`, its path
prefixed with the field's element path. -/
theorem fieldNested_mem_elim
    (recurse : List ShapeDescriptor → ShapeDescriptor → List (String × SValue) →
      List ValidationResult)
    (avail : List ShapeDescriptor) (fd : FieldDescriptor)
    (entries : List (String × SValue)) (res : ValidationResult)
    (h : res ∈ fieldNestedResultsWith recurse avail fd entries) :
    ∃ cls v i inner d2,
      fd.tag.refClass = some cls ∧ entries.lookup fd.fname = some v ∧
      (i, SValue.vrec inner) ∈ withIdx 0 (presentValues v) ∧
      avail.find? (fun s => s.targetClass == cls) = some d2 ∧
      ∃ r ∈ recurse (avail.filter (fun s => !(s.targetClass == cls))) d2 inner,
        res = ⟨elemPath fd i ++ r.path, r.ckind, r.severity, r.message⟩ := by
  cases hc : fd.tag.refClass with
  | none =>
      simp only [fieldNestedResultsWith, hc] at h
      cases h
  | some cls =>
      cases hl : entries.lookup fd.fname with
      | none =>
          simp only [fieldNestedResultsWith, hc, hl] at h
          cases h
      | some v =>
          simp only [fieldNestedResultsWith, hc, hl] at h
          rcases List.mem_flatMap.mp h with ⟨p, hpmem, hp⟩
          obtain ⟨i, u⟩ := p
          cases u with
          | prim q => cases hp
          | vlist es => cases hp
          | vrec inner =>
              cases hf : avail.find? (fun s => s.targetClass == cls) with
              | none =>
                  rw [hf] at hp
                  cases hp
              | some d2 =>
                  rw [hf] at hp
                  rcases List.mem_map.mp hp with ⟨r, hrmem, hre⟩
                  exact ⟨cls, v, i, inner, d2, rfl, rfl, hpmem, hf,
                    r, hrmem, hre.symm⟩

/-- Introduction for nested-descent results. -/
theorem fieldNested_mem_intro
    (recurse : List ShapeDescriptor → ShapeDescriptor → List (String × SValue) →
      List ValidationResult)
    (avail : List ShapeDescriptor) (fd : FieldDescriptor)
    (entries : List (String × SValue)) (cls : String) (v : SValue) (i : Nat)
    (inner : List (String × SValue)) (d2 : ShapeDescriptor) (r : ValidationResult)
    (hc : fd.tag.refClass = some cls) (hl : entries.lookup fd.fname = some v)
    (hp : (i, SValue.vrec inner) ∈ withIdx 0 (presentValues v))
    (hf : avail.find? (fun s => s.targetClass == cls) = some d2)
    (hr : r ∈ recurse (avail.filter (fun s => !(s.targetClass == cls))) d2 inner) :
    (⟨elemPath fd i ++ r.path, r.ckind, r.severity, r.message⟩ : ValidationResult) ∈
      fieldNestedResultsWith recurse avail fd entries := by
  simp only [fieldNestedResultsWith, hc, hl]
  refine List.mem_flatMap.mpr ⟨(i, SValue.vrec inner), hp, ?_⟩
  rw [hf]
  exact List.mem_map.mpr ⟨r, hr, rfl⟩

/-- Every result of an unexpected-field scan is a violation at that
field's single-segment path. -/
theorem unexpected_path (d : ShapeDescriptor) (entries : List (String × SValue))
    (res : ValidationResult) (h : res ∈ unexpectedResults d entries) :
    ∃ g, res.path = [.fieldSeg g] := by
  rcases List.mem_filterMap.mp h with ⟨e, _, he⟩
  split at he
  · cases he
  · cases he
    exact ⟨e.fst, rfl⟩

/-- Every result the engine emits has a path headed by a field-name
segment. -/
theorem validate_path_head (fuel : Nat) (avail : List ShapeDescriptor)
    (d : ShapeDescriptor) (entries : List (String × SValue)) (res : ValidationResult)
    (h : res ∈ validateShapeFuel fuel avail d entries) :
    ∃ g rest, res.path = .fieldSeg g :: rest := by
  cases fuel with
  | zero => cases h
  | succ f =>
      simp only [validateShapeFuel] at h
      rcases List.mem_append.mp h with h1 | h2
      · rcases List.mem_flatMap.mp h1 with ⟨fd, _, hfd⟩
        rcases List.mem_append.mp hfd with hd | hn
        · obtain ⟨rest, hrest⟩ := fieldDirect_path fd entries res hd
          exact ⟨fd.fname, rest, hrest⟩
        · rcases fieldNested_mem_elim _ avail fd entries res hn with
            ⟨cls, v, i, inner, d2, _, _, _, _, r, _, hre⟩
          obtain ⟨rest0, hrest0⟩ := elemPath_head fd i
          refine ⟨fd.fname, rest0 ++ r.path, ?_⟩
          rw [hre]
          show elemPath fd i ++ r.path = _
          rw [hrest0]
          rfl
      · split at h2
        · obtain ⟨g, hg⟩ := unexpected_path d entries res h2
          exact ⟨g, [], hg⟩
        · cases h2

/-- The fields of a generated shape are the introspected schema
fields. -/
theorem generate_fields (ns : String) (s : Schema) :
    (generate ns s).fields = s.fields.map (introspectField ns) := rfl

/-- Generated shapes use open validation mode. -/
theorem generate_closed (ns : String) (s : Schema) :
    (generate ns s).closed = false := rfl

/-- Introspection keeps the field's name. -/
theorem introspect_fname (ns : String) (f : SchemaField) :
    (introspectField ns f).fname = f.name := rfl

/-- Introspection maps the field's rules through the
ConstraintMapper. -/
theorem introspect_constraints (ns : String) (f : SchemaField) :
    (introspectField ns f).constraints = f.rules.map mapRule := rfl

/-- A nested-descent result's path is never a field's own one- or
two-segment direct path. -/
theorem nested_path_ne (fd : FieldDescriptor) (i : Nat) (g : String)
    (rest2 : List PathSeg) (a : String) :
    elemPath fd i ++ (.fieldSeg g :: rest2) ≠ [.fieldSeg a] ∧
    ∀ j, elemPath fd i ++ (.fieldSeg g :: rest2) ≠ [.fieldSeg a, .idxSeg j] := by
  rw [elemPath]
  split <;> constructor <;> simp

/-- Elimination at the top of one engine step for an open-mode shape:
every result belongs to some field, directly or through nested
descent. -/
theorem validate_mem_elim (fuel : Nat) (avail : List ShapeDescriptor)
    (d : ShapeDescriptor) (entries : List (String × SValue)) (res : ValidationResult)
    (hclosed : d.closed = false)
    (h : res ∈ validateShapeFuel (fuel + 1) avail d entries) :
    ∃ fd ∈ d.fields,
      res ∈ fieldDirectResults fd entries ∨
      res ∈ fieldNestedResultsWith
        (fun a2 d2 e2 => validateShapeFuel fuel a2 d2 e2) avail fd entries := by
  simp only [validateShapeFuel, hclosed] at h
  rw [if_neg (by simp), List.append_nil] at h
  rcases List.mem_flatMap.mp h with ⟨fd, hfd, hres⟩
  exact ⟨fd, hfd, List.mem_append.mp hres⟩

/-- Introduction at the top of one engine step: a direct result of any
of the shape's fields is in the report. -/
theorem validate_mem_intro_direct (fuel : Nat) (avail : List ShapeDescriptor)
    (d : ShapeDescriptor) (entries : List (String × SValue))
    (fd : FieldDescriptor) (res : ValidationResult)
    (hclosed : d.closed = false) (hfd : fd ∈ d.fields)
    (h : res ∈ fieldDirectResults fd entries) :
    res ∈ validateShapeFuel (fuel + 1) avail d entries := by
  simp only [validateShapeFuel, hclosed]
  rw [if_neg (by simp), List.append_nil]
  exact List.mem_flatMap.mpr ⟨fd, hfd, List.mem_append.mpr (Or.inl h)⟩

/-- A record with a value for field `f` — the record used for C1's
witness. -/
def johnOkRecord : List (String × SValue) :=
  [("name", .prim (.pstr "Jo")), ("age", .prim (.pint 30))]

/-- C1: the translated constraint set of every field is monotonic with
respect to the originating schema.  (a) Soundness: whenever the
schema's own rules for field `f` accept every present value of the
record's value for `f`, validating the record against the generated
shape yields no violation-severity result on `f` (results on `f` being
those at `f`'s own one- or two-segment path).  (b) Never-accept: when
some rule rejects a present value, validation flags a result on `f` —
the translation never accepts a value the original schema would
reject, though an opaque rule's flag is a warning rather than a
violation. -/
theorem constraint_translation_monotonic
    (ns : String) (s : Schema) (f : SchemaField) (envShapes : List ShapeDescriptor)
    (entries : List (String × SValue)) (v : SValue)
    (hf : f ∈ s.fields)
    (hnodup : (s.fields.map SchemaField.name).Nodup)
    (hlook : entries.lookup f.name = some v) :
    ((∀ r ∈ f.rules, ∀ u ∈ presentValues v, ruleAccepts r u = true) →
      ∀ res ∈ validate envShapes (generate ns s) entries,
        (res.path = [.fieldSeg f.name] ∨
          ∃ i, res.path = [.fieldSeg f.name, .idxSeg i]) →
        res.severity ≠ .violation) ∧
    (∀ r ∈ f.rules, ∀ u ∈ presentValues v, ruleAccepts r u = false →
      ∃ res ∈ validate envShapes (generate ns s) entries,
        res.path.head? = some (.fieldSeg f.name)) := by
  constructor
  · intro hacc res hres hpath
    obtain ⟨fd, hfdmem, hcase⟩ := validate_mem_elim envShapes.length
      (envShapes.filter (fun s2 => !(s2.targetClass == (generate ns s).targetClass)))
      (generate ns s) entries res (generate_closed ns s) hres
    rw [generate_fields] at hfdmem
    rcases List.mem_map.mp hfdmem with ⟨f0, hf0, rfl⟩
    rcases hcase with hd | hn
    · rcases fieldDirect_mem_elim _ entries res hd with
        ⟨hnone, hreq⟩ | ⟨v0, hsome, i, u, hiu, c, hcmem, he⟩
      · have hname : f0.name = f.name := by
          subst hreq
          rcases hpath with h1 | ⟨j, h2⟩
          · simpa [requiredResult, introspect_fname] using h1
          · simp [requiredResult, introspect_fname] at h2
        have hf0f : f0 = f := List.inj_on_of_nodup_map hnodup hf0 hf hname
        subst hf0f
        rw [introspect_fname] at hnone
        rw [hlook] at hnone
        cases hnone
      · have hpath2 : res.path = elemPath (introspectField ns f0) i :=
          evalSpec_path _ c u res he
        obtain ⟨rest0, hrest0⟩ := elemPath_head (introspectField ns f0) i
        have hname : f0.name = f.name := by
          rcases hpath with h1 | ⟨j, h2⟩
          · rw [hpath2, hrest0] at h1
            have h3 := (List.cons_eq_cons.mp h1).1
            rw [introspect_fname] at h3
            exact PathSeg.fieldSeg.inj h3
          · rw [hpath2, hrest0] at h2
            have h3 := (List.cons_eq_cons.mp h2).1
            rw [introspect_fname] at h3
            exact PathSeg.fieldSeg.inj h3
        have hf0f : f0 = f := List.inj_on_of_nodup_map hnodup hf0 hf hname
        subst hf0f
        rw [introspect_fname] at hsome
        rw [hlook] at hsome
        have hv0 : v0 = v := (Option.some.inj hsome).symm
        rw [introspect_constraints] at hcmem
        rcases List.mem_map.mp hcmem with ⟨r, hrmem, rfl⟩
        have hu : u ∈ presentValues v := by
          rw [← hv0]
          exact withIdx_mem_snd _ 0 i u hiu
        have hs := evalSpec_sound r u _ (hacc r hrmem u hu) res he
        rw [hs]
        simp
    · rcases fieldNested_mem_elim _ _ _ entries res hn with
        ⟨cls, v1, i, inner, d2, _, _, _, _, r, hrmem, hre⟩
      obtain ⟨g, rest2, hg⟩ := validate_path_head envShapes.length _ d2 inner r hrmem
      have hrp : res.path = elemPath (introspectField ns f0) i ++ (.fieldSeg g :: rest2) := by
        rw [hre]
        show elemPath (introspectField ns f0) i ++ r.path = _
        rw [hg]
      rcases hpath with h1 | ⟨j, h2⟩
      · rw [hrp] at h1
        exact absurd h1 (nested_path_ne (introspectField ns f0) i g rest2 f.name).1
      · rw [hrp] at h2
        exact absurd h2 ((nested_path_ne (introspectField ns f0) i g rest2 f.name).2 j)
  · intro r hrmem u hu hrej
    obtain ⟨i, hiu⟩ := withIdx_mem_intro (presentValues v) 0 u hu
    obtain ⟨res, he⟩ := evalSpec_flags r u (elemPath (introspectField ns f) i) hrej
    have hd : res ∈ fieldDirectResults (introspectField ns f) entries :=
      mem_fieldDirect_intro (introspectField ns f) entries v i u (mapRule r) res
        (by rw [introspect_fname]; exact hlook) hiu
        (by rw [introspect_constraints]; exact List.mem_map.mpr ⟨r, hrmem, rfl⟩) he
    refine ⟨res, ?_, ?_⟩
    · exact validate_mem_intro_direct envShapes.length
        (envShapes.filter (fun s2 => !(s2.targetClass == (generate ns s).targetClass)))
        (generate ns s) entries (introspectField ns f) res (generate_closed ns s)
        (by rw [generate_fields]; exact List.mem_map.mpr ⟨f, hf, rfl⟩) hd
    · rw [evalSpec_path _ _ _ _ he]
      obtain ⟨rest0, hrest0⟩ := elemPath_head (introspectField ns f) i
      rw [hrest0, introspect_fname]
      rfl

/-- Witness for C1 at the scenario-1 Person schema, field `age`, value
30 accepted by both rules. -/
theorem constraint_translation_monotonic_witness :
    ageField ∈ personScenarioSchema.fields ∧
    (personScenarioSchema.fields.map SchemaField.name).Nodup ∧
    johnOkRecord.lookup ageField.name = some (SValue.prim (PrimValue.pint 30)) ∧
    (((∀ r ∈ ageField.rules,
        ∀ u ∈ presentValues (SValue.prim (PrimValue.pint 30)),
        ruleAccepts r u = true) →
      ∀ res ∈ validate [] (generate baseNS personScenarioSchema) johnOkRecord,
        (res.path = [.fieldSeg ageField.name] ∨
          ∃ i, res.path = [.fieldSeg ageField.name, .idxSeg i]) →
        res.severity ≠ .violation) ∧
     (∀ r ∈ ageField.rules,
        ∀ u ∈ presentValues (SValue.prim (PrimValue.pint 30)),
        ruleAccepts r u = false →
        ∃ res ∈ validate [] (generate baseNS personScenarioSchema) johnOkRecord,
          res.path.head? = some (.fieldSeg ageField.name))) :=
  ⟨List.mem_cons_of_mem _ (List.mem_cons_self _ _), by decide, rfl,
   constraint_translation_monotonic baseNS personScenarioSchema ageField []
     johnOkRecord (SValue.prim (PrimValue.pint 30))
     (List.mem_cons_of_mem _ (List.mem_cons_self _ _)) (by decide) rfl⟩

/-- C6: the ConstraintMapper returns the opaque `state` validator as a
ConstraintSpec tagged `unsupported: true` together with a diagnostic
instead of dropping it; registering the Address schema still succeeds;
its generated ShapeDescriptor carries exactly one unsupported
ConstraintSpec; validating any record holding a value for `state`
yields a warning-severity result on that field; and results of
warning severity never change a report's pass status. -/
theorem unsupported_constraint_carried_as_warning
    (rs : RegistryState) (entries : List (String × SValue)) (v : SValue)
    (hfresh : rs.cache.lookup (generate baseNS addressSchema).targetClass = none)
    (hlook : entries.lookup "state" = some v)
    (hne : presentValues v ≠ []) :
    mapRuleDiag (.customValidator "state_must_be_uppercase" stateUpperPred) =
      (⟨.customPredicate "state_must_be_uppercase", true⟩,
       ["unsupported constraint carried forward"]) ∧
    (register rs (generate baseNS addressSchema)).fst = .created ∧
    ((generate baseNS addressSchema).fields.flatMap
        (fun fd => fd.constraints.filter (fun c => c.unsupported))).length = 1 ∧
    (∃ res ∈ validate [] (generate baseNS addressSchema) entries,
      res.path.head? = some (.fieldSeg "state") ∧ res.severity = .warning) ∧
    (∀ rs1 rs2 : List ValidationResult, (∀ x ∈ rs2, x.severity = .warning) →
      reportPass (rs1 ++ rs2) = reportPass rs1) := by
  refine ⟨rfl, by rw [register_miss rs _ hfresh], by decide, ?_, ?_⟩
  · cases hpv : presentValues v with
    | nil => exact absurd hpv hne
    | cons u rest =>
        have hiu : (0, u) ∈ withIdx 0 (presentValues v) := by
          rw [hpv, withIdx]
          exact List.mem_cons_self _ _
        have hd : (⟨elemPath (introspectField baseNS stateField) 0,
            ConstraintKind.customPredicateK, Severity.warning,
            "unsupported constraint"⟩ : ValidationResult) ∈
            fieldDirectResults (introspectField baseNS stateField) entries :=
          mem_fieldDirect_intro (introspectField baseNS stateField) entries v 0 u
            (mapRule (.customValidator "state_must_be_uppercase" stateUpperPred)) _
            hlook hiu
            (List.mem_cons_of_mem _ (List.mem_cons_of_mem _ (List.mem_cons_self _ _)))
            rfl
        refine ⟨⟨elemPath (introspectField baseNS stateField) 0,
            ConstraintKind.customPredicateK, Severity.warning,
            "unsupported constraint"⟩, ?_, rfl, rfl⟩
        exact validate_mem_intro_direct 0 [] (generate baseNS addressSchema) entries
          (introspectField baseNS stateField) _ (generate_closed baseNS addressSchema)
          (by
            rw [generate_fields]
            exact List.mem_map.mpr ⟨stateField,
              List.mem_cons_of_mem _ (List.mem_cons_of_mem _ (List.mem_cons_self _ _)),
              rfl⟩)
          hd
  · intro rs1 rs2 hw
    rw [reportPass, reportPass, List.all_append]
    have h2 : rs2.all (fun x => !(x.severity == Severity.violation)) = true := by
      rw [List.all_eq_true]
      intro x hx
      rw [hw x hx]
      rfl
    rw [h2, Bool.and_true]

/-- Witness for C6: a fresh registry and a record with a lowercase
state value. -/
theorem unsupported_constraint_carried_as_warning_witness :
    freshRegistry.cache.lookup (generate baseNS addressSchema).targetClass = none ∧
    ([("state", SValue.prim (PrimValue.pstr "ny"))].lookup "state" =
      some (SValue.prim (PrimValue.pstr "ny"))) ∧
    presentValues (SValue.prim (PrimValue.pstr "ny")) ≠ [] ∧
    (∃ res ∈ validate [] (generate baseNS addressSchema)
        [("state", SValue.prim (PrimValue.pstr "ny"))],
      res.path.head? = some (.fieldSeg "state") ∧ res.severity = .warning) :=
  ⟨rfl, rfl, by simp [presentValues],
   (unsupported_constraint_carried_as_warning freshRegistry
      [("state", SValue.prim (PrimValue.pstr "ny"))]
      (SValue.prim (PrimValue.pstr "ny")) rfl rfl
      (by simp [presentValues])).2.2.2.1⟩

end LGS
